import Mathlib

/-!
Shallow embedding of `psu_progs/charge_lithium_ion.py`: the lithium-ion
charging control loop (`charge_lithium_ion_battery` and its inner
`_do_charge`).  Instrument readings are modelled as exact rationals; the
charge-progress estimator, whose log branch needs real logarithms, is
modelled over the reals with rational inputs.  Python exceptions raised by
arithmetic (`ZeroDivisionError`, `math` domain errors, `statistics.mean`
on an empty window) are modelled explicitly, since the loop's failure
counting reacts to them.
-/

namespace PsuProgs

/-- Operating regime reported by the supply (`koradserial.ChannelMode`). -/
inductive ChannelMode where
  | constantCurrent
  | constantVoltage
  deriving DecidableEq, Repr

/-- Session parameters as resolved at the top of `charge_lithium_ion_battery`
(lines 58–61): `charge_current` already resolved (the `None` default is
handled by `resolveChargeCurrent`), `cutoff` derived via `Params.cutoff`. -/
structure Params where
  chargeCurrent : ℚ
  chargeVoltage : ℚ
  cutoffRatio : ℚ
  channel : ℤ
  windowSize : ℕ
  maxFailures : ℕ
  deriving DecidableEq, Repr

/-- Resolution of the `charge_current=None` default:
`if charge_current is None: charge_current = battery_capacity / 2`. -/
def resolveChargeCurrent (batteryCapacity : ℚ) (chargeCurrent : Option ℚ) : ℚ :=
  chargeCurrent.getD (batteryCapacity / 2)

/-- Derived once before the loop: `cutoff = charge_cutoff_ratio * charge_current`. -/
def Params.cutoff (p : Params) : ℚ :=
  p.cutoffRatio * p.chargeCurrent

/-- Build the parameter record the way `charge_lithium_ion_battery`'s keyword
defaults do: `charge_voltage=4.2`, `charge_cutoff_ratio=0.1`, `channel=0`,
`num_samples=3`, `max_successive_failures=5`. -/
def mkParams (batteryCapacity : ℚ) (chargeCurrent : Option ℚ)
    (chargeVoltage : ℚ := 42/10) (cutoffRatio : ℚ := 1/10)
    (channel : ℤ := 0) (windowSize : ℕ := 3) (maxFailures : ℕ := 5) : Params :=
  { chargeCurrent := resolveChargeCurrent batteryCapacity chargeCurrent
    chargeVoltage := chargeVoltage
    cutoffRatio := cutoffRatio
    channel := channel
    windowSize := windowSize
    maxFailures := maxFailures }

/-- Bounded FIFO append: `deque(maxlen=n).append(x)` — the new sample goes on
the right, and the oldest samples are evicted so at most `n` remain. -/
def pushW (n : ℕ) (l : List ℚ) (x : ℚ) : List ℚ :=
  if (l ++ [x]).length ≤ n then l ++ [x]
  else (l ++ [x]).drop ((l ++ [x]).length - n)

/-- Append an optional sample: `if reading is not None: samples.append(reading)`. -/
def pushOpt (n : ℕ) (l : List ℚ) (o : Option ℚ) : List ℚ :=
  match o with
  | none => l
  | some x => pushW n l x

/-- Arithmetic mean of a window, `statistics.mean` on a nonempty window. -/
def mean (l : List ℚ) : ℚ :=
  l.sum / (l.length : ℚ)

/-- What one polling iteration receives from the instrument.  `readError`
models any of the three capability calls (`get_channel_mode`,
`chan.output_current`, `chan.output_voltage`) raising, in which case no
sample is appended; `readings` carries the returned values, either of which
may be absent (`None`). -/
inductive TickInput where
  | readError
  | readings (mode : ChannelMode) (current : Option ℚ) (voltage : Option ℚ)
  deriving DecidableEq, Repr

/-- Mutable state of `_do_charge`'s loop: the two sample windows and the
successive-failure counter. -/
structure LoopState where
  cw : List ℚ
  vw : List ℚ
  failures : ℕ
  deriving DecidableEq, Repr

/-- Result of one loop iteration: continue with a new state (`wait` records
whether `time.sleep(1)` runs, i.e. whether the `continue` fast-fill path was
taken), or terminate. -/
inductive StepOut where
  | next (s : LoopState) (wait : Bool)
  | completed
  | aborted
  deriving DecidableEq, Repr

/-- Whether the charge-level computation raises for the given smoothed
current.  Constant-current: `0.5 * agg_voltage / charge_voltage` divides by
`charge_voltage`.  Constant-voltage, `agg_current > 0.4`: divides by
`charge_current - 0.4`.  Constant-voltage log branch (`n >= 1`):
`math.log(n, b)` raises a domain error for `b ≤ 0` and a zero-division for
`b = 1`; `n` is positive there since `n ≥ 1`. -/
def levelRaises (p : Params) (mode : ChannelMode) (aggCurrent : ℚ) : Bool :=
  match mode with
  | .constantCurrent => p.chargeVoltage = 0
  | .constantVoltage =>
    if 2/5 < aggCurrent then
      decide (p.chargeCurrent = 2/5)
    else
      let n : ℚ := (aggCurrent - p.cutoff) * 1000
      let b : ℚ := (p.chargeCurrent - p.cutoff) * 1000
      if 1 ≤ n then decide (b ≤ 0 ∨ b = 1) else false

/-- The `except` arm: `successive_failures += 1`, abort (after
`psu.output.off()`) when the counter reaches `max_successive_failures`,
otherwise keep looping through the cadence wait. -/
def failOut (p : Params) (cw vw : List ℚ) (failures : ℕ) : StepOut :=
  if p.maxFailures ≤ failures + 1 then .aborted
  else .next ⟨cw, vw, failures + 1⟩ true

/-- One iteration of the `while True` loop in `_do_charge` (lines 88–146).
Reads arrive as `i`; absent samples are appended before the `None` checks
raise; the fast-fill `continue` fires while the current window is short
(skipping the `else` reset and the sleep); then the smoothed means, the
charge level (only its raise/no-raise behaviour matters to control flow),
and the stop test `agg_current < cutoff` run in source order. -/
def step (p : Params) (s : LoopState) (i : TickInput) : StepOut :=
  match i with
  | .readError => failOut p s.cw s.vw s.failures
  | .readings mode cur vol =>
    let cw := pushOpt p.windowSize s.cw cur
    let vw := pushOpt p.windowSize s.vw vol
    if cur.isNone || vol.isNone then failOut p cw vw s.failures
    else if cw.length < p.windowSize then .next ⟨cw, vw, s.failures⟩ false
    else if cw.isEmpty then failOut p cw vw s.failures
    else if levelRaises p mode (mean cw) then failOut p cw vw s.failures
    else if mean cw < p.cutoff then .completed
    else .next ⟨cw, vw, 0⟩ true

/-- Outcome of running the loop on a finite prefix of tick inputs; an
exhausted input list leaves the loop still `running` (externally
interruptible between ticks). -/
inductive RunOutcome where
  | completed
  | aborted
  | running (s : LoopState)
  deriving DecidableEq, Repr

/-- Run the loop over a list of tick inputs. -/
def runTicks (p : Params) : LoopState → List TickInput → RunOutcome
  | s, [] => .running s
  | s, i :: rest =>
    match step p s i with
    | .completed => .completed
    | .aborted => .aborted
    | .next s' _ => runTicks p s' rest

/-- Initial loop state: `successive_failures = 0` and both deques empty. -/
def initState : LoopState := ⟨[], [], 0⟩

/-- Calls `charge_lithium_ion_battery` makes against the power supply that
affect or program the output. -/
inductive Action where
  | setVoltage (v : ℚ)
  | setCurrent (c : ℚ)
  | outputOn
  | outputOff
  deriving DecidableEq, Repr

/-- How the session's control flow ends, seen from inside the `with` block:
the stop condition returned, the failure threshold raised, or the finite
input prefix ran out (the loop was interrupted externally between ticks). -/
inductive SessionEnd where
  | completed
  | aborted
  | interrupted
  deriving DecidableEq, Repr

/-- Output-related actions emitted by the loop body itself: nothing per
tick, except that the `Aborted(MaxFailuresExceeded)` transition calls
`psu.output.off()` before raising. -/
def loopTrace (p : Params) : LoopState → List TickInput → List Action × SessionEnd
  | _, [] => ([], .interrupted)
  | s, i :: rest =>
    match step p s i with
    | .completed => ([], .completed)
    | .aborted => ([.outputOff], .aborted)
    | .next s' _ => loopTrace p s' rest

/-- `_do_charge`: program the set-points, enable output, then loop. -/
def doCharge (p : Params) (inputs : List TickInput) : List Action × SessionEnd :=
  let r := loopTrace p initState inputs
  (Action.setVoltage p.chargeVoltage :: Action.setCurrent p.chargeCurrent ::
    Action.outputOn :: r.1, r.2)

/-- The body of the `with KoradSerial(port)` block after the channel lookup:
the defensive reset (`if psu.status.output: psu.output.off()`), then
`try: _do_charge() finally: psu.output.off()`.  `initOn` is whether the
supply's output was already enabled when the session began. -/
def chargeSession (p : Params) (initOn : Bool) (inputs : List TickInput) :
    List Action × SessionEnd :=
  let r := doCharge p inputs
  ((if initOn then [Action.outputOff] else []) ++ r.1 ++ [Action.outputOff], r.2)

/-- How `charge_lithium_ion_battery` terminates as seen by its caller. -/
inductive SessionResult where
  | completed
  | aborted
  | interrupted
  | invalidChannel
  deriving DecidableEq, Repr

/-- Full `charge_lithium_ion_battery` behaviour after parameter resolution:
the channel dispatch (`if channel == 0 ... elif channel == 1 ... else raise
ValueError`) happens before the defensive reset and before `_do_charge`, so
an invalid channel raises with no output action performed at all. -/
def chargeBattery (p : Params) (initOn : Bool) (inputs : List TickInput) :
    List Action × SessionResult :=
  if p.channel = 0 ∨ p.channel = 1 then
    let r := chargeSession p initOn inputs
    (r.1, match r.2 with
          | .completed => .completed
          | .aborted => .aborted
          | .interrupted => .interrupted)
  else ([], .invalidChannel)

/-- Output state after a list of supply calls: `enableOutput` energizes,
`disableOutput` de-energizes, programming set-points changes nothing. -/
def energizedAfter (init : Bool) (l : List Action) : Bool :=
  l.foldl (fun e a =>
    match a with
    | .outputOn => true
    | .outputOff => false
    | _ => e) init

/-- Errors the Python arithmetic in the estimator can raise:
`math.log` domain errors and division by zero. -/
inductive EstimatorError where
  | mathDomain
  | divisionByZero
  deriving DecidableEq, Repr

/-- Constant-voltage branch of the charge-progress estimator (`cc_level` in
the source): the linear segment above the 0.4 A inflection, then the
logarithmic segment `1 - log_b(n)` scaled into the remaining 3/4, with the
source's only guard being `n >= 1`.  `math.log(n, b)` is `log n / log b`,
raising a domain error when `b ≤ 0` and a zero-division when `b = 1`. -/
noncomputable def ccLevelCV (chargeCurrent cutoff aggCurrent : ℚ) :
    Except EstimatorError ℝ :=
  if 2/5 < aggCurrent then
    if chargeCurrent = 2/5 then .error .divisionByZero
    else .ok ((1/4 : ℝ) * (((chargeCurrent : ℝ) - (aggCurrent : ℝ)) /
      ((chargeCurrent : ℝ) - 2/5)))
  else
    let n : ℚ := (aggCurrent - cutoff) * 1000
    let b : ℚ := (chargeCurrent - cutoff) * 1000
    if 1 ≤ n then
      if b ≤ 0 then .error .mathDomain
      else if b = 1 then .error .divisionByZero
      else .ok ((1 - Real.log (n : ℝ) / Real.log (b : ℝ)) * (3/4) + 1/4)
    else .ok 1

/-- The full charge-level computation of one ready tick: constant-current
mode uses `0.5 * agg_voltage / charge_voltage` (division by the programmed
voltage), constant-voltage mode rescales `cc_level` by
`0.5 + 0.5 * cc_level`. -/
noncomputable def chargeLevelOf (mode : ChannelMode)
    (chargeCurrent chargeVoltage cutoff aggCurrent aggVoltage : ℚ) :
    Except EstimatorError ℝ :=
  match mode with
  | .constantCurrent =>
    if chargeVoltage = 0 then .error .divisionByZero
    else .ok ((1/2 : ℝ) * (aggVoltage : ℝ) / (chargeVoltage : ℝ))
  | .constantVoltage =>
    (ccLevelCV chargeCurrent cutoff aggCurrent).map fun l => (1/2 : ℝ) + (1/2) * l

/-- A tick whose instrument reads already fail before any smoothing: a
capability call raised, or a returned reading was `None`. -/
def isReadFail : TickInput → Bool
  | .readError => true
  | .readings _ cur vol => cur.isNone || vol.isNone

/-- Current window after the read/append phase of a tick. -/
def cwAfter (p : Params) (s : LoopState) : TickInput → List ℚ
  | .readError => s.cw
  | .readings _ cur _ => pushOpt p.windowSize s.cw cur

/-- Voltage window after the read/append phase of a tick. -/
def vwAfter (p : Params) (s : LoopState) : TickInput → List ℚ
  | .readError => s.vw
  | .readings _ _ vol => pushOpt p.windowSize s.vw vol

end PsuProgs

namespace PsuProgs

theorem pushW_length_le (n : ℕ) (l : List ℚ) (x : ℚ) :
    (pushW n l x).length ≤ n ∨ (pushW n l x).length = l.length + 1 := by
  unfold pushW
  split
  · exact Or.inr (by simp)
  · rename_i h
    refine Or.inl ?_
    simp only [List.length_drop, List.length_append, List.length_cons,
      List.length_nil] at h ⊢
    omega

theorem pushW_length_le_of_le (n : ℕ) (l : List ℚ) (x : ℚ)
    (h : l.length ≤ n) : (pushW n l x).length ≤ n := by
  unfold pushW
  split
  · rename_i h'
    exact h'
  · rename_i h'
    simp only [List.length_drop, List.length_append, List.length_cons,
      List.length_nil] at h' ⊢
    omega

theorem step_readFail (p : Params) (s : LoopState) (i : TickInput)
    (h : isReadFail i = true) :
    step p s i = failOut p (cwAfter p s i) (vwAfter p s i) s.failures := by
  cases i with
  | readError => rfl
  | readings m cur vol =>
    simp only [isReadFail] at h
    simp [step, cwAfter, vwAfter, h]

theorem step_notReady (p : Params) (s : LoopState) (m : ChannelMode) (c v : ℚ)
    (h : (pushW p.windowSize s.cw c).length < p.windowSize) :
    step p s (.readings m (some c) (some v)) =
      .next ⟨pushW p.windowSize s.cw c, pushW p.windowSize s.vw v, s.failures⟩
        false := by
  simp [step, pushOpt, h]

theorem step_ready_raise (p : Params) (s : LoopState) (m : ChannelMode)
    (c v : ℚ)
    (hfull : p.windowSize ≤ (pushW p.windowSize s.cw c).length)
    (h : (pushW p.windowSize s.cw c).isEmpty = true ∨
      levelRaises p m (mean (pushW p.windowSize s.cw c)) = true) :
    step p s (.readings m (some c) (some v)) =
      failOut p (pushW p.windowSize s.cw c) (pushW p.windowSize s.vw v)
        s.failures := by
  simp only [step, pushOpt, Option.isNone_some, Bool.or_self, Bool.false_eq_true,
    if_false, if_neg (Nat.not_lt.mpr hfull)]
  rcases h with h | h
  · rw [if_pos h]
  · by_cases he : (pushW p.windowSize s.cw c).isEmpty = true
    · rw [if_pos he]
    · rw [if_neg he, if_pos h]

theorem step_ready_ok (p : Params) (s : LoopState) (m : ChannelMode) (c v : ℚ)
    (hW : 1 ≤ p.windowSize)
    (hfull : p.windowSize ≤ (pushW p.windowSize s.cw c).length)
    (hraise : levelRaises p m (mean (pushW p.windowSize s.cw c)) = false) :
    step p s (.readings m (some c) (some v)) =
      if mean (pushW p.windowSize s.cw c) < p.cutoff then .completed
      else .next ⟨pushW p.windowSize s.cw c, pushW p.windowSize s.vw v, 0⟩
        true := by
  have hne : (pushW p.windowSize s.cw c).isEmpty = false := by
    cases hl : pushW p.windowSize s.cw c with
    | nil =>
      rw [hl] at hfull
      simp only [List.length_nil, Nat.le_zero] at hfull
      omega
    | cons a t => rfl
  simp [step, pushOpt, Nat.not_lt.mpr hfull, hne, hraise]

theorem energizedAfter_append_off (b : Bool) (l : List Action) :
    energizedAfter b (l ++ [Action.outputOff]) = false := by
  simp [energizedAfter, List.foldl_append]

theorem energizedAfter_chargeSession (p : Params) (initOn : Bool)
    (inputs : List TickInput) :
    energizedAfter initOn (chargeSession p initOn inputs).1 = false := by
  have h : (chargeSession p initOn inputs).1 =
      ((if initOn then [Action.outputOff] else []) ++ (doCharge p inputs).1) ++
        [Action.outputOff] := by
    simp [chargeSession, List.append_assoc]
  rw [h]
  exact energizedAfter_append_off _ _

theorem runTicks_readFail_abort (p : Params) (s : LoopState)
    (l : List TickInput) (hf : ∀ j ∈ l, isReadFail j = true) (hne : l ≠ [])
    (hlen : p.maxFailures ≤ s.failures + l.length) :
    runTicks p s l = .aborted := by
  induction l generalizing s with
  | nil => exact absurd rfl hne
  | cons i rest ih =>
    have hi : isReadFail i = true := hf i (List.mem_cons_self i rest)
    rw [runTicks, step_readFail p s i hi, failOut]
    by_cases habort : p.maxFailures ≤ s.failures + 1
    · rw [if_pos habort]
    · rw [if_neg habort]
      have hrest : rest ≠ [] := by
        intro hr
        rw [hr] at hlen
        simp only [List.length_cons, List.length_nil] at hlen
        omega
      exact ih (s := ⟨cwAfter p s i, vwAfter p s i, s.failures + 1⟩)
        (fun j hj => hf j (List.mem_cons_of_mem i hj)) hrest
        (by simp only [List.length_cons] at hlen ⊢; omega)

theorem runTicks_readFail_run (p : Params) (s : LoopState)
    (l : List TickInput) (hf : ∀ j ∈ l, isReadFail j = true)
    (hlen : s.failures + l.length < p.maxFailures) :
    ∃ s', runTicks p s l = .running s' ∧
      s'.failures = s.failures + l.length := by
  induction l generalizing s with
  | nil => exact ⟨s, rfl, by simp⟩
  | cons i rest ih =>
    have hi : isReadFail i = true := hf i (List.mem_cons_self i rest)
    rw [runTicks, step_readFail p s i hi, failOut]
    have habort : ¬ p.maxFailures ≤ s.failures + 1 := by
      simp only [List.length_cons] at hlen
      omega
    rw [if_neg habort]
    obtain ⟨s', hrun, hfail⟩ :=
      ih (s := ⟨cwAfter p s i, vwAfter p s i, s.failures + 1⟩)
        (fun j hj => hf j (List.mem_cons_of_mem i hj))
        (by simp only [List.length_cons] at hlen ⊢; omega)
    exact ⟨s', hrun, by simp only [List.length_cons] at hfail ⊢; omega⟩

/-- Concrete session parameters used by the concrete runs below: a 2.0 Ah
battery charged with the source's defaults — `chargeCurrent = 1.0 A`,
`chargeVoltage = 4.2 V`, `cutoffRatio = 0.1` (hence `cutoff = 0.1 A`),
channel 0, window of 3 samples, at most 5 successive failures. -/
def demoParams : Params :=
  { chargeCurrent := 1
    chargeVoltage := 42/10
    cutoffRatio := 1/10
    channel := 0
    windowSize := 3
    maxFailures := 5 }

/-- C1: every charge session that has entered the sampling loop de-energizes
the power-supply output before it is over.  `chargeSession` covers all three
endings: the `Completed` return, the `Aborted(MaxFailuresExceeded)` raise
(which additionally turns the output off inside the `except` arm), and an
external interruption between ticks (the input prefix running out); every
one of them passes through the `finally: psu.output.off()`, so the output
state at the end of the emitted call trace is always off. -/
theorem c1_session_end_output_disabled (p : Params) (initOn : Bool)
    (inputs : List TickInput) :
    energizedAfter initOn (chargeSession p initOn inputs).1 = false :=
  energizedAfter_chargeSession p initOn inputs

/-- C4 counterexample: with `channel = 2` and the output already energized
at session start, `charge_lithium_ion_battery` raises the `InvalidChannel`
error during channel dispatch — before the defensive reset and before the
`try/finally` — so it performs no supply call at all and the pre-existing
energized output is left energized.  This fatal path does not disable the
output before raising, contradicting the claim. -/
theorem c4_invalid_channel_output_left_energized :
    (chargeBattery { demoParams with channel := 2 } true []).2 =
      SessionResult.invalidChannel ∧
    (chargeBattery { demoParams with channel := 2 } true []).1 = [] ∧
    energizedAfter true
      (chargeBattery { demoParams with channel := 2 } true []).1 = true := by
  refine ⟨?_, ?_, ?_⟩ <;> norm_num [chargeBattery, energizedAfter, demoParams]

/-- C4 amended: every fatal termination path of a session whose channel
index is 0 or 1 — i.e. every path that reaches the charging procedure —
disables the output before raising; the `InvalidChannel` error is instead
raised before the session touches the output at all, so that path performs
no output call (and in particular does not disable a pre-existing energized
output). -/
theorem c4_fatal_paths_disable_output (p : Params) (initOn : Bool)
    (inputs : List TickInput) (h : p.channel = 0 ∨ p.channel = 1) :
    energizedAfter initOn (chargeBattery p initOn inputs).1 = false := by
  unfold chargeBattery
  rw [if_pos h]
  exact energizedAfter_chargeSession p initOn inputs

/-- C4 witness: a concrete valid-channel session (aborting after one read
failure would not matter — any input prefix works) ends with the output
de-energized. -/
theorem c4_fatal_paths_disable_output_witness :
    energizedAfter true (chargeBattery demoParams true [TickInput.readError]).1 =
      false :=
  c4_fatal_paths_disable_output demoParams true [TickInput.readError]
    (Or.inl rfl)

/-- C9: an unset `charge_current` resolves to `battery_capacity / 2`, and
`cutoff = charge_cutoff_ratio * charge_current` is derived once before the
loop; with the defaults, a 2.0 Ah battery yields `chargeCurrent = 1.0` and
`cutoff = 0.1`.  Session-invariance holds by construction: the mutable loop
state (`LoopState`) carries only the windows and the failure counter, and
`step` reads the cutoff from the immutable `Params` on every tick. -/
theorem c9_default_resolution_and_cutoff (cap : ℚ) :
    resolveChargeCurrent cap none = cap / 2 ∧
    (mkParams cap none).cutoff = 1/10 * (cap / 2) ∧
    (mkParams 2 none).chargeCurrent = 1 ∧
    (mkParams 2 none).cutoff = 1/10 := by
  refine ⟨rfl, rfl, ?_, ?_⟩ <;>
    norm_num [mkParams, resolveChargeCurrent, Params.cutoff]

/-- C2: on a tick with both readings present, the session completes exactly
when the current window is at capacity and its smoothed mean is below the
cutoff — under legal parameters (`sampleWindowSize ≥ 1`,
`chargeVoltageV > 0`, `cutoffCurrentA ≤ chargeCurrentA`) the charge-level
computation cannot raise on a below-cutoff tick, so `chargeLevel` never
affects whether or when the session transitions to `Completed`: the
right-hand side of the equivalence mentions only the readiness test and the
comparison `meanCurrent < cutoffCurrentA`. -/
theorem c2_stop_decision_is_cutoff_comparison (p : Params) (s : LoopState)
    (m : ChannelMode) (c v : ℚ)
    (hW : 1 ≤ p.windowSize) (hV : 0 < p.chargeVoltage)
    (hC : p.cutoff ≤ p.chargeCurrent) :
    step p s (.readings m (some c) (some v)) = .completed ↔
      p.windowSize ≤ (pushW p.windowSize s.cw c).length ∧
        mean (pushW p.windowSize s.cw c) < p.cutoff := by
  constructor
  · intro h
    by_cases hfull : p.windowSize ≤ (pushW p.windowSize s.cw c).length
    · refine ⟨hfull, ?_⟩
      by_cases hraise :
          levelRaises p m (mean (pushW p.windowSize s.cw c)) = true
      · rw [step_ready_raise p s m c v hfull (Or.inr hraise)] at h
        unfold failOut at h
        split at h <;> exact StepOut.noConfusion h
      · rw [step_ready_ok p s m c v hW hfull
          (Bool.eq_false_iff.mpr hraise)] at h
        by_cases hstop : mean (pushW p.windowSize s.cw c) < p.cutoff
        · exact hstop
        · rw [if_neg hstop] at h
          exact StepOut.noConfusion h
    · rw [step_notReady p s m c v (Nat.lt_of_not_le hfull)] at h
      exact StepOut.noConfusion h
  · rintro ⟨hfull, hstop⟩
    have hraise :
        levelRaises p m (mean (pushW p.windowSize s.cw c)) = false := by
      cases m with
      | constantCurrent =>
        simp only [levelRaises]
        exact decide_eq_false hV.ne'
      | constantVoltage =>
        simp only [levelRaises]
        by_cases h04 : (2/5 : ℚ) < mean (pushW p.windowSize s.cw c)
        · rw [if_pos h04]
          refine decide_eq_false ?_
          intro hIc
          rw [hIc] at hC
          linarith
        · rw [if_neg h04, if_neg ?_]
          intro hn
          nlinarith
    rw [step_ready_ok p s m c v hW hfull hraise, if_pos hstop]

/-- C2 witness: with a one-sample window, the very first tick is ready; a
smoothed current of 0.05 A is below the 0.1 A cutoff, so the session
completes on that tick. -/
theorem c2_stop_decision_witness :
    step { demoParams with windowSize := 1 } initState
      (.readings .constantVoltage (some (1/20)) (some 4)) = .completed :=
  (c2_stop_decision_is_cutoff_comparison { demoParams with windowSize := 1 }
    initState .constantVoltage (1/20) 4 (by norm_num [demoParams])
    (by norm_num [demoParams])
    (by norm_num [demoParams, Params.cutoff])).mpr
    (by constructor <;>
      norm_num [demoParams, pushW, mean, initState, Params.cutoff])

/-- C5 counterexample: with `sampleWindowSize = 2`, a first tick that loses
the voltage reading still fills the current window; on the second tick the
current window is at capacity while the voltage window holds a single
sample (`pushW 2 [] 4 = [4]`), yet the stop-condition test runs and the
session completes — so a charge-progress/stop computation is performed
before both windows hold `sampleWindowSize` samples, and the voltage mean
is taken over fewer than `sampleWindowSize` real measurements. -/
theorem c5_stop_test_with_partial_voltage_window :
    runTicks { demoParams with windowSize := 2 } initState
      [.readings .constantVoltage (some (1/20)) none] =
      .running ⟨[1/20], [], 1⟩ ∧
    runTicks { demoParams with windowSize := 2 } initState
      [.readings .constantVoltage (some (1/20)) none,
       .readings .constantVoltage (some (1/20)) (some 4)] = .completed ∧
    (pushW 2 [] (4:ℚ)).length = 1 := by
  refine ⟨?_, ?_, ?_⟩ <;>
    norm_num [runTicks, step, pushOpt, pushW, mean, levelRaises, failOut,
      initState, Params.cutoff, demoParams]

/-- C5 amended: the Smoother's readiness predicate is "the CURRENT window at
capacity" — while the current window is short the tick performs no progress
or stop computation at all (first conjunct), and any completing tick has a
current window of exactly `sampleWindowSize` samples (second conjunct,
under the invariant that the stored window never exceeds capacity, which
`pushW` maintains); the voltage window is not consulted and may hold fewer
samples. -/
theorem c5_readiness_is_current_window_only (p : Params) (s : LoopState)
    (m : ChannelMode) (c v : ℚ) :
    ((pushW p.windowSize s.cw c).length < p.windowSize →
      step p s (.readings m (some c) (some v)) =
        .next ⟨pushW p.windowSize s.cw c, pushW p.windowSize s.vw v,
          s.failures⟩ false) ∧
    (s.cw.length ≤ p.windowSize →
      step p s (.readings m (some c) (some v)) = .completed →
      (pushW p.windowSize s.cw c).length = p.windowSize) := by
  refine ⟨step_notReady p s m c v, ?_⟩
  intro hinv h
  by_cases hfull : p.windowSize ≤ (pushW p.windowSize s.cw c).length
  · exact le_antisymm (pushW_length_le_of_le _ _ _ hinv) hfull
  · rw [step_notReady p s m c v (Nat.lt_of_not_le hfull)] at h
    exact StepOut.noConfusion h

/-- C5 witness: a first tick with a 3-sample window is not ready, so it
neither resets the counter nor waits, and performs no stop test. -/
theorem c5_readiness_witness :
    step demoParams initState (.readings .constantVoltage (some 2) (some 3)) =
      .next ⟨[2], [3], 0⟩ false :=
  (c5_readiness_is_current_window_only demoParams initState .constantVoltage
    2 3).1 (by norm_num [demoParams, pushW, initState])

/-- C6: the successive-failure counter discipline, tick by tick.  A tick
whose reads fail is counted: +1 exactly, aborting at the threshold
(conjunct 1); a successful tick that leaves the current window short keeps
the counter unchanged and skips the cadence wait — the `continue` path
(conjunct 2); a ready tick whose charge-level computation raises is also a
failed tick, +1 exactly (conjunct 3); a ready, successful, non-completing
tick resets the counter to 0 and waits (conjunct 4); and the counter is
never reset to 0 by anything except a ready successful tick (conjunct 5).
A completing tick returns before the reset, so the discipline is stated for
ticks on which the session continues. -/
theorem c6_failure_counter_discipline (p : Params) (s : LoopState)
    (i : TickInput) (m : ChannelMode) (c v : ℚ) :
    (isReadFail i = true →
      step p s i = if p.maxFailures ≤ s.failures + 1 then StepOut.aborted
        else .next ⟨cwAfter p s i, vwAfter p s i, s.failures + 1⟩ true) ∧
    ((pushW p.windowSize s.cw c).length < p.windowSize →
      step p s (.readings m (some c) (some v)) =
        .next ⟨pushW p.windowSize s.cw c, pushW p.windowSize s.vw v,
          s.failures⟩ false) ∧
    (p.windowSize ≤ (pushW p.windowSize s.cw c).length →
      ((pushW p.windowSize s.cw c).isEmpty = true ∨
        levelRaises p m (mean (pushW p.windowSize s.cw c)) = true) →
      step p s (.readings m (some c) (some v)) =
        if p.maxFailures ≤ s.failures + 1 then StepOut.aborted
        else .next ⟨pushW p.windowSize s.cw c, pushW p.windowSize s.vw v,
          s.failures + 1⟩ true) ∧
    (1 ≤ p.windowSize →
      p.windowSize ≤ (pushW p.windowSize s.cw c).length →
      levelRaises p m (mean (pushW p.windowSize s.cw c)) = false →
      p.cutoff ≤ mean (pushW p.windowSize s.cw c) →
      step p s (.readings m (some c) (some v)) =
        .next ⟨pushW p.windowSize s.cw c, pushW p.windowSize s.vw v, 0⟩
          true) ∧
    (∀ s' w, step p s i = .next s' w → s'.failures = 0 → 0 < s.failures →
      ∃ m' c' v', i = .readings m' (some c') (some v') ∧
        p.windowSize ≤ (pushW p.windowSize s.cw c').length) := by
  refine ⟨?_, step_notReady p s m c v, ?_, ?_, ?_⟩
  · intro h
    rw [step_readFail p s i h]
    rfl
  · intro hfull h
    rw [step_ready_raise p s m c v hfull h]
    rfl
  · intro hW hfull hraise hcut
    rw [step_ready_ok p s m c v hW hfull hraise, if_neg (not_lt.mpr hcut)]
  · intro s' w h hzero hpos
    match i with
    | .readError =>
      rw [step_readFail p s .readError rfl] at h
      unfold failOut at h
      split at h
      · exact StepOut.noConfusion h
      · cases h
        dsimp only at hzero
        omega
    | .readings m' none vol =>
      rw [step_readFail p s (.readings m' none vol) rfl] at h
      unfold failOut at h
      split at h
      · exact StepOut.noConfusion h
      · cases h
        dsimp only at hzero
        omega
    | .readings m' (some c') none =>
      rw [step_readFail p s (.readings m' (some c') none) rfl] at h
      unfold failOut at h
      split at h
      · exact StepOut.noConfusion h
      · cases h
        dsimp only at hzero
        omega
    | .readings m' (some c') (some v') =>
      by_cases hfull : p.windowSize ≤ (pushW p.windowSize s.cw c').length
      · exact ⟨m', c', v', rfl, hfull⟩
      · rw [step_notReady p s m' c' v' (Nat.lt_of_not_le hfull)] at h
        cases h
        dsimp only at hzero
        omega

/-- C6 witness: a first successful tick with a 3-sample window leaves the
counter unchanged (here 0) and skips the cadence wait. -/
theorem c6_failure_counter_witness :
    step demoParams initState
      (.readings .constantCurrent (some 1) (some 4)) =
      .next ⟨[1], [4], 0⟩ false :=
  (c6_failure_counter_discipline demoParams initState .readError
    .constantCurrent 1 4).2.1 (by norm_num [demoParams, pushW, initState])

/-- C7 (code-bug evidence): in the constant-voltage branch with
`meanCurrent = 0.3 ≤ 0.4`, `chargeCurrent = cutoff = 0.2` (cutoff ratio 1),
we get `n = 100 ≥ 1` and `b = 0 ≤ 1`; the source's only guard (`n >= 1`)
does not cover the degenerate base, so `math.log(100, 0)` raises a
math-domain fault where the specification mandates a guarded
`level = 1.0`. -/
theorem c7_unguarded_log_base_raises :
    chargeLevelOf .constantVoltage (1/5) (42/10) (1/5) (3/10) 4 =
      .error .mathDomain ∧
    (3/10 : ℚ) ≤ 2/5 ∧ (1:ℚ) ≤ (3/10 - 1/5) * 1000 ∧
    (1/5 - 1/5 : ℚ) * 1000 ≤ 1 := by
  refine ⟨?_, by norm_num, by norm_num, by norm_num⟩
  norm_num [chargeLevelOf, ccLevelCV, Except.map]

/-- C8 counterexample: the legal input `chargeCurrent = 0.002 A`,
`cutoffRatio = 0.5` (in `(0,1]`, giving `cutoff = 0.001 A`),
`meanCurrent = 0.002 ∈ [0, chargeCurrent]`, `meanVoltage = 4 ∈ [0, 4.2]`
lands on the degenerate log base `b = 1` with `n = 1`: the estimator raises
a zero-division fault (`math.log(1.0, 1.0)` is `log(1.0)/log(1.0) = 0/0`)
and produces no value at all, so `chargeLevel` is not a value in `[0,1]`
for every legal input.  This input is degenerate in double precision too,
not only in the exact-rational model: `0.002 * 0.5` halves a double
exactly, giving `cutoff == double(0.001)`; `double(0.002) - double(0.001)`
is the exact difference `double(0.001)` (the two are an exact factor of 2
apart); and `0.001 * 1000` rounds to exactly `1.0`, so the real program
computes `n = b = 1.0` and raises `ZeroDivisionError` here as well. -/
theorem c8_degenerate_base_no_value :
    chargeLevelOf .constantVoltage (1/500) (42/10) (1/1000) (1/500) 4 =
      .error .divisionByZero ∧
    (1/1000 : ℚ) = 1/2 * (1/500) ∧ (0:ℚ) < 1/2 ∧
    (1/2 : ℚ) ≤ 1 ∧ (0:ℚ) < 1/500 ∧ (0:ℚ) < 42/10 ∧
    (0:ℚ) ≤ 1/500 ∧ (1/500 : ℚ) ≤ 1/500 ∧ (0:ℚ) ≤ 4 ∧
    (4:ℚ) ≤ 42/10 := by
  refine ⟨?_, by norm_num, by norm_num, by norm_num, by norm_num,
    by norm_num, by norm_num, by norm_num, by norm_num, by norm_num⟩
  norm_num [chargeLevelOf, ccLevelCV, Except.map]

/-- C8 amended: for all legal inputs (`0 < chargeVoltage`,
`0 ≤ meanVoltage ≤ chargeVoltage`, `0 ≤ meanCurrent ≤ chargeCurrent`)
outside the degenerate configuration `(chargeCurrent - cutoff) * 1000 = 1`
(log base exactly 1, where the unguarded source raises — see the
counterexample), the estimator produces a value, and that value lies in
`[0,1]`, in both the constant-current and constant-voltage branches. -/
theorem c8_charge_level_unit_interval (m : ChannelMode)
    (Ic Vc cutoff aggI aggV : ℚ)
    (hVc : 0 < Vc) (hv0 : 0 ≤ aggV) (hvle : aggV ≤ Vc)
    (hi0 : 0 ≤ aggI) (hile : aggI ≤ Ic)
    (hb : (Ic - cutoff) * 1000 ≠ 1) :
    ∃ x : ℝ, chargeLevelOf m Ic Vc cutoff aggI aggV = .ok x ∧
      0 ≤ x ∧ x ≤ 1 := by
  have hVcR : (0:ℝ) < (Vc : ℝ) := by exact_mod_cast hVc
  have hv0R : (0:ℝ) ≤ (aggV : ℝ) := by exact_mod_cast hv0
  have hvleR : (aggV : ℝ) ≤ (Vc : ℝ) := by exact_mod_cast hvle
  have hileR : (aggI : ℝ) ≤ (Ic : ℝ) := by exact_mod_cast hile
  cases m with
  | constantCurrent =>
    refine ⟨(1/2 : ℝ) * (aggV : ℝ) / (Vc : ℝ), ?_, ?_, ?_⟩
    · simp [chargeLevelOf, hVc.ne']
    · apply div_nonneg ?_ hVcR.le
      linarith
    · rw [div_le_one hVcR]
      linarith
  | constantVoltage =>
    simp only [chargeLevelOf]
    by_cases h04 : (2/5 : ℚ) < aggI
    · have hIc5 : Ic ≠ 2/5 := by
        intro hh
        rw [hh] at hile
        linarith
      have h04R : (2/5 : ℝ) < (aggI : ℝ) := by
        have h : ((2/5 : ℚ) : ℝ) < ((aggI : ℚ) : ℝ) := by exact_mod_cast h04
        push_cast at h
        exact h
      have hd : (0:ℝ) < (Ic : ℝ) - 2/5 := by linarith
      have hq0 : 0 ≤ ((Ic : ℝ) - (aggI : ℝ)) / ((Ic : ℝ) - 2/5) :=
        div_nonneg (by linarith) hd.le
      have hq1 : ((Ic : ℝ) - (aggI : ℝ)) / ((Ic : ℝ) - 2/5) ≤ 1 := by
        rw [div_le_one hd]
        linarith
      simp only [ccLevelCV, if_pos h04, if_neg hIc5, Except.map]
      refine ⟨_, rfl, ?_, ?_⟩ <;> nlinarith [hq0, hq1]
    · by_cases hn : (1:ℚ) ≤ (aggI - cutoff) * 1000
      · have hnb : (aggI - cutoff) * 1000 ≤ (Ic - cutoff) * 1000 := by
          nlinarith
        have hb1 : (1:ℚ) ≤ (Ic - cutoff) * 1000 := le_trans hn hnb
        have hbgt : (1:ℚ) < (Ic - cutoff) * 1000 := lt_of_le_of_ne hb1
          (Ne.symm hb)
        have hble : ¬ ((Ic - cutoff) * 1000 ≤ 0) := by linarith
        simp only [ccLevelCV, if_neg h04, if_pos hn, if_neg hble, if_neg hb,
          Except.map]
        have hn1 : (1:ℝ) ≤ (((aggI - cutoff) * 1000 : ℚ) : ℝ) := by
          exact_mod_cast hn
        have hnbR : (((aggI - cutoff) * 1000 : ℚ) : ℝ) ≤
            (((Ic - cutoff) * 1000 : ℚ) : ℝ) := by exact_mod_cast hnb
        have hb1R : (1:ℝ) < (((Ic - cutoff) * 1000 : ℚ) : ℝ) := by
          exact_mod_cast hbgt
        have hlogn : 0 ≤ Real.log (((aggI - cutoff) * 1000 : ℚ) : ℝ) :=
          Real.log_nonneg hn1
        have hlogb : 0 < Real.log (((Ic - cutoff) * 1000 : ℚ) : ℝ) :=
          Real.log_pos hb1R
        have hmono : Real.log (((aggI - cutoff) * 1000 : ℚ) : ℝ) ≤
            Real.log (((Ic - cutoff) * 1000 : ℚ) : ℝ) :=
          Real.log_le_log (by linarith) hnbR
        have ht0 : 0 ≤ Real.log (((aggI - cutoff) * 1000 : ℚ) : ℝ) /
            Real.log (((Ic - cutoff) * 1000 : ℚ) : ℝ) :=
          div_nonneg hlogn hlogb.le
        have ht1 : Real.log (((aggI - cutoff) * 1000 : ℚ) : ℝ) /
            Real.log (((Ic - cutoff) * 1000 : ℚ) : ℝ) ≤ 1 :=
          (div_le_one hlogb).mpr hmono
        refine ⟨_, rfl, ?_, ?_⟩ <;> nlinarith [ht0, ht1]
      · simp only [ccLevelCV, if_neg h04, if_neg hn, Except.map]
        refine ⟨(1:ℝ)/2 + 1/2 * 1, rfl, by norm_num, by norm_num⟩

/-- C8 witness: the spec's Scenario B — constant-voltage mode,
`chargeCurrent = 1.0`, `cutoff = 0.1`, smoothed current `0.3` (log branch,
`n = 200`, `b = 900`) — yields a charge level in `[0,1]`. -/
theorem c8_charge_level_witness :
    ∃ x : ℝ, chargeLevelOf .constantVoltage 1 (42/10) (1/10) (3/10) 4 =
      .ok x ∧ 0 ≤ x ∧ x ≤ 1 :=
  c8_charge_level_unit_interval .constantVoltage 1 (42/10) (1/10) (3/10) 4
    (by norm_num) (by norm_num) (by norm_num) (by norm_num) (by norm_num)
    (by norm_num)

/-- C3 counterexample: with `maxSuccessiveFailures = 2`, the run
[failed tick, successful tick, failed tick] aborts even though no two
consecutive ticks fail.  The middle tick succeeds (its reads are present)
but the window is still filling, so the early-`continue` path skips the
counter reset: the counter goes 1, 1, 2 and reaches the threshold.  A
single successful tick between failures does NOT in general prevent the
abort, contradicting the claim. -/
theorem c3_nonconsecutive_failures_still_abort :
    runTicks { demoParams with maxFailures := 2 } initState
      [.readError,
       .readings .constantVoltage (some 1) (some 4),
       .readError] = .aborted ∧
    isReadFail (.readings .constantVoltage (some 1) (some 4)) = false ∧
    ({ demoParams with maxFailures := 2 } : Params).maxFailures = 2 := by
  refine ⟨?_, rfl, rfl⟩
  norm_num [runTicks, step, pushOpt, pushW, mean, levelRaises, failOut,
    initState, Params.cutoff, demoParams]

/-- C3 amended: if, starting from any reachable counter value, at least
`maxSuccessiveFailures` consecutive ticks fail, the session aborts
(conjunct 1; the `Aborted` transition disables output — see C1); fewer
consecutive failures than the remaining budget leave the session running
with the counter grown by exactly the number of failures (conjunct 2); and
a successful tick prevents the abort only when it finds the Smoother ready,
in which case it resets the counter to 0 so that a full
`maxSuccessiveFailures` further consecutive failures are again required
(conjunct 3).  A success while the window is still filling leaves the
counter unchanged and does not prevent the abort (see the
counterexample). -/
theorem c3_failure_threshold_aborts (p : Params) (s : LoopState)
    (l : List TickInput) (hf : ∀ j ∈ l, isReadFail j = true) :
    (l ≠ [] → p.maxFailures ≤ s.failures + l.length →
      runTicks p s l = .aborted) ∧
    (s.failures + l.length < p.maxFailures →
      ∃ s', runTicks p s l = .running s' ∧
        s'.failures = s.failures + l.length) ∧
    (∀ (m : ChannelMode) (c v : ℚ) (s₀ : LoopState),
      1 ≤ p.windowSize →
      p.windowSize ≤ (pushW p.windowSize s₀.cw c).length →
      levelRaises p m (mean (pushW p.windowSize s₀.cw c)) = false →
      p.cutoff ≤ mean (pushW p.windowSize s₀.cw c) →
      step p s₀ (.readings m (some c) (some v)) =
        .next ⟨pushW p.windowSize s₀.cw c, pushW p.windowSize s₀.vw v, 0⟩
          true) := by
  refine ⟨fun hne hlen => runTicks_readFail_abort p s l hf hne hlen,
    fun hlen => runTicks_readFail_run p s l hf hlen, ?_⟩
  intro m c v s₀ hW hfull hraise hcut
  rw [step_ready_ok p s₀ m c v hW hfull hraise, if_neg (not_lt.mpr hcut)]

/-- C3 witness: two consecutive failed ticks with a threshold of 2 abort the
session. -/
theorem c3_failure_threshold_witness :
    runTicks { demoParams with maxFailures := 2 } initState
      [TickInput.readError, TickInput.readError] = .aborted :=
  (c3_failure_threshold_aborts { demoParams with maxFailures := 2 } initState
    [TickInput.readError, TickInput.readError] (by decide)).1 (by decide)
    (by norm_num [demoParams, initState])

/-- C10: on a tick whose current reading is absent but whose voltage reading
is present, the voltage sample is appended before the `None` check raises,
and the tick counts as failed (first conjunct, for every state).  The
concrete runs then exhibit the consequences: after one such tick the two
windows hold different numbers of samples, and — mirroring the asymmetry —
a session whose first tick lost the voltage reading reaches the stop
decision with the voltage window holding only 2 of `sampleWindowSize = 3`
samples, completing on a voltage mean over a short window. -/
theorem c10_voltage_appended_despite_missing_current (p : Params)
    (s : LoopState) (m : ChannelMode) (v : ℚ) :
    step p s (.readings m none (some v)) =
      (if p.maxFailures ≤ s.failures + 1 then StepOut.aborted
       else .next ⟨s.cw, pushW p.windowSize s.vw v, s.failures + 1⟩ true) ∧
    runTicks demoParams initState
      [.readings .constantVoltage none (some 4)] = .running ⟨[], [4], 1⟩ ∧
    runTicks demoParams initState
      [.readings .constantVoltage (some (1/20)) none,
       .readings .constantVoltage (some (1/20)) (some 4)] =
      .running ⟨[1/20, 1/20], [4], 1⟩ ∧
    runTicks demoParams initState
      [.readings .constantVoltage (some (1/20)) none,
       .readings .constantVoltage (some (1/20)) (some 4),
       .readings .constantVoltage (some (1/20)) (some 4)] = .completed := by
  refine ⟨?_, ?_, ?_, ?_⟩ <;>
    norm_num [runTicks, step, pushOpt, pushW, mean, levelRaises, failOut,
      initState, Params.cutoff, demoParams]

end PsuProgs
